import Mathlib

/-!
Verification development for the dexo-activity web application.

The repository contains a Postgres-backed variant (index.js) and a
file-backed variant (src/unnamed/part_000, second program) of the same
activity-log server.  The definitions below are a shallow embedding of the
request-handling functions of those programs:

* strings are `String` / `List Char`; JavaScript `undefined` is `Option.none`;
* `str.replace(/x/g, y)` on single characters is `replaceAllCh`;
* `escapeHtml` is the four chained global replaces from the source;
* `highlightSearch` models `new RegExp(escaped, "gi")` + `replace`:
  `regexEscape` is the metacharacter-escaping replace from the source, and
  `literalOfPattern` models the JS RegExp compiler restricted to patterns
  whose unescaped characters are all literals (the compiler errors or gives
  operator semantics exactly on unescaped metacharacters / dangling
  backslashes, which `literalOfPattern` maps to `none`); `markAll` is the
  leftmost non-overlapping global replacement with the `<mark>` wrapper,
  with the `i` flag modelled by `Char.toLower` (ASCII case folding);
* `parseIntJS` models `parseInt` (whitespace skip, optional sign, `0x` hex
  prefix, longest digit prefix, `none` for NaN); `x || d` on its result is
  folded into `effectiveLimit` / `effOffset`;
* `jsSlice` models `Array.prototype.slice(start, end)` including negative
  index normalisation;
* SQL executed by the Postgres variant is embedded by its semantics:
  `ORDER BY created_at DESC` as an insertion sort on the `created_at` key,
  `ILIKE '%q%'` as case-insensitive substring match, and the expression
  `DATE(created_at AT TIME ZONE ...)` as an abstract day-key function
  `localDay : Int → String` parameter;
* the file-backed variant stores `created_at` as `new Date().toISOString()`;
  a stored timestamp is embedded as the `UtcTime` structure holding the UTC
  civil fields of the instant, and `getDateStr` (parse + `toISOString` +
  date part) is rendering those fields as `YYYY-MM-DD`.
-/

/-! ## Generic character and list helpers -/

-- ASCII case folding, the model of the JS case-insensitive comparison.
def lowerCh (c : Char) : Char := c.toLower

-- Plain prefix test on character lists.
def startsWithL : List Char → List Char → Bool
  | [], _ => true
  | _ :: _, [] => false
  | p :: ps, c :: cs => (p == c) && startsWithL ps cs

-- Substring containment (`String.prototype.includes`).
def containsL (needle : List Char) : List Char → Bool
  | [] => startsWithL needle []
  | c :: rest => startsWithL needle (c :: rest) || containsL needle rest

-- Case-insensitive prefix test.
def ciStartsWith : List Char → List Char → Bool
  | [], _ => true
  | _ :: _, [] => false
  | p :: ps, c :: cs => (lowerCh p == lowerCh c) && ciStartsWith ps cs

-- Case-insensitive substring occurrence test.
def ciOccurs (pat : List Char) : List Char → Bool
  | [] => ciStartsWith pat []
  | c :: rest => ciStartsWith pat (c :: rest) || ciOccurs pat rest

-- Global single-character replacement: `str.replace(/t/g, rep)`.
def replaceAllCh (t : Char) (rep : List Char) : List Char → List Char
  | [] => []
  | c :: rest => if c = t then rep ++ replaceAllCh t rep rest else c :: replaceAllCh t rep rest

/-! ## escapeHtml (index.js lines 472-474, part_000 lines 601-603) -/

-- The four chained global replaces of the source, in source order.
def escapeHtml (s : String) : String :=
  String.mk (replaceAllCh '"' "&quot;".data
    (replaceAllCh '>' "&gt;".data
      (replaceAllCh '<' "&lt;".data
        (replaceAllCh '&' "&amp;".data s.data))))

-- Per-character normal form of escapeHtml, used in proofs.
def escChar (c : Char) : List Char :=
  if c = '&' then "&amp;".data
  else if c = '<' then "&lt;".data
  else if c = '>' then "&gt;".data
  else if c = '"' then "&quot;".data
  else [c]

def escList : List Char → List Char
  | [] => []
  | c :: rest => escChar c ++ escList rest

/-! ## highlightSearch (index.js lines 476-480, part_000 lines 605-609) -/

-- The character class [.*+?^$\x7b\x7d()|[\]\\] of the escaping replace.
def isMeta (c : Char) : Bool :=
  c = '.' || c = '*' || c = '+' || c = '?' || c = '^' || c = '$' ||
  c = '\x7b' || c = '\x7d' || c = '(' || c = ')' || c = '|' ||
  c = '[' || c = ']' || c = '\\'

-- search.replace(/[.*+?^$\x7b\x7d()|[\]\\]/g, backslash-prefix).
def regexEscape : List Char → List Char
  | [] => []
  | c :: rest => (if isMeta c then ['\\', c] else [c]) ++ regexEscape rest

-- Model of RegExp pattern compilation restricted to literal patterns:
-- a backslash-escaped character denotes itself, an unescaped
-- non-metacharacter denotes itself, and an unescaped metacharacter or a
-- dangling backslash is an operator or a syntax error (`none`).
def literalOfPattern : List Char → Option (List Char)
  | [] => some []
  | c :: rest =>
    if c = '\\' then
      match rest with
      | [] => none
      | d :: rest2 => (literalOfPattern rest2).map (fun l => d :: l)
    else if isMeta c then none
    else (literalOfPattern rest).map (fun l => c :: l)

def markOpen : List Char := "<mark>".data
def markClose : List Char := "</mark>".data

-- Leftmost non-overlapping case-insensitive global replacement of `pat`
-- by `<mark>` + match + `</mark>`; the fuel argument (initially the text
-- length) only serves termination, every match consumes at least one
-- character.
def markAllAux (pat : List Char) : Nat → List Char → List Char
  | _, [] => []
  | 0, l => l
  | fuel + 1, c :: rest =>
    if ciStartsWith pat (c :: rest) then
      markOpen ++ (c :: rest).take pat.length ++ markClose ++
        markAllAux pat fuel ((c :: rest).drop pat.length)
    else
      c :: markAllAux pat fuel rest

def markAll (pat l : List Char) : List Char := markAllAux pat l.length l

-- highlightSearch(text, search); `none` models a thrown exception from
-- RegExp compilation.
def highlightSearch (text search : String) : Option String :=
  if search = "" then some text
  else
    match literalOfPattern (regexEscape search.data) with
    | none => none
    | some lit => some (String.mk (markAll lit text.data))

-- The content cell of a rendered activity card (index.js line 446,
-- part_000 line 587): highlightSearch(escapeHtml(a.content), search).
def activityContentHtml (content search : String) : Option String :=
  highlightSearch (escapeHtml content) search

-- Every ampersand in the list starts one of the four entities emitted by
-- escapeHtml; an output violating this contains an unescaped ampersand.
def ampOk : List Char → Bool
  | [] => true
  | c :: rest =>
    (if c = '&' then
       startsWithL "amp;".data rest || startsWithL "lt;".data rest ||
       startsWithL "gt;".data rest || startsWithL "quot;".data rest
     else true) && ampOk rest

-- `MarksOf pat l o` holds when `o` is `l` with some segments that match
-- `pat` case-insensitively wrapped in markOpen/markClose markers.
inductive MarksOf (pat : List Char) : List Char → List Char → Prop where
  | nil : MarksOf pat [] []
  | keep (c : Char) (l o : List Char) : MarksOf pat l o → MarksOf pat (c :: l) (c :: o)
  | mark (m : List Char) (l o : List Char) :
      m.map lowerCh = pat.map lowerCh → MarksOf pat l o →
      MarksOf pat (m ++ l) (markOpen ++ m ++ markClose ++ o)

/-! ## parseInt and the limit/offset computation
    (index.js lines 141-142, part_000 lines 345-346) -/

def isWsCh (c : Char) : Bool :=
  c = ' ' || c = '\t' || c = '\n' || c = '\r' || c = '\x0b' || c = '\x0c'

def isDigitCh (c : Char) : Bool := '0' ≤ c && c ≤ '9'

def isHexDigitCh (c : Char) : Bool :=
  isDigitCh c || ('a' ≤ c && c ≤ 'f') || ('A' ≤ c && c ≤ 'F')

def digVal (c : Char) : Nat :=
  if isDigitCh c then c.toNat - 48
  else if 'a' ≤ c && c ≤ 'f' then c.toNat - 87
  else if 'A' ≤ c && c ≤ 'F' then c.toNat - 55
  else 0

def natOfDigits (base : Nat) (ds : List Char) : Nat :=
  ds.foldl (fun acc c => base * acc + digVal c) 0

def decPrefix (l : List Char) : Option Nat :=
  let ds := l.takeWhile isDigitCh
  if ds.isEmpty then none else some (natOfDigits 10 ds)

def hexPrefix (l : List Char) : Option Nat :=
  let ds := l.takeWhile isHexDigitCh
  if ds.isEmpty then none else some (natOfDigits 16 ds)

def parseNatPrefix (l : List Char) : Option Nat :=
  match l with
  | '0' :: c :: rest =>
    if c = 'x' || c = 'X' then hexPrefix rest else decPrefix ('0' :: c :: rest)
  | _ => decPrefix l

-- parseInt(value) for a query-string value; an absent value is
-- `parseInt(undefined)` = NaN = `none`.
def parseIntJS : Option String → Option Int
  | none => none
  | some s =>
    match s.data.dropWhile isWsCh with
    | '-' :: rest => (parseNatPrefix rest).map (fun n => -(n : Int))
    | '+' :: rest => (parseNatPrefix rest).map (fun n => (n : Int))
    | l => (parseNatPrefix l).map (fun n => (n : Int))

-- Math.min(parseInt(req.query.limit) || 50, 200): NaN and 0 are falsy.
def effectiveLimit (q : Option String) : Int :=
  min (match parseIntJS q with
       | none => 50
       | some n => if n = 0 then 50 else n) 200

-- parseInt(req.query.offset) || 0.
def effOffset (q : Option String) : Int :=
  match parseIntJS q with
  | none => 0
  | some n => n

/-! ## Array.prototype.slice -/

-- Index normalisation of slice: negative indices count from the end,
-- results are clamped to [0, len].
def jsSliceIdx (len : Nat) (x : Int) : Nat :=
  if x < 0 then (len + x).toNat else min x.toNat len

def jsSlice {α : Type} (l : List α) (s e : Int) : List α :=
  (l.take (jsSliceIdx l.length e)).drop (jsSliceIdx l.length s)

/-! ## Requests, configuration and the auth gate
    (index.js lines 60-124, part_000 lines 276-341) -/

structure AppConfig where
  appToken : Option String
deriving DecidableEq

structure ReqBody where
  content : Option String
  category : Option String
  details : Option String
deriving DecidableEq

structure Req where
  cookieToken : Option String
  authHeader : Option String
  body : ReqBody
deriving DecidableEq

-- The template literal `Bearer ${APP_TOKEN}`; undefined interpolates as
-- the text "undefined".
def bearerOf (tok : Option String) : String :=
  match tok with
  | some t => "Bearer " ++ t
  | none => "Bearer undefined"

-- requireAuth middleware: req.cookies.app_token === APP_TOKEN (both sides
-- may be undefined; strict equality on Option String).
def requireAuthAllows (req : Req) (cfg : AppConfig) : Bool :=
  req.cookieToken == cfg.appToken

-- The inline auth check of POST /api/activities: cookieAuth || headerAuth.
def postAuthOk (req : Req) (cfg : AppConfig) : Bool :=
  (req.cookieToken == cfg.appToken) || (req.authHeader == some (bearerOf cfg.appToken))

-- The authorization predicate as worded by the spec (section 4.1):
-- cookie equals the secret OR the Authorization header is Bearer+secret.
-- Stated for comparison against the middleware actually in the source.
def specAuthorized (req : Req) (secret : String) : Bool :=
  req.cookieToken == some secret || req.authHeader == some ("Bearer " ++ secret)

/-! ## Timestamps and the date key
    (part_000 lines 376-379: getDateStr via toISOString) -/

-- UTC civil fields of a stored `created_at` instant (the file-backed
-- variant stores `new Date().toISOString()`).
structure UtcTime where
  year : Nat
  month : Nat
  day : Nat
  hour : Nat
  minute : Nat
  second : Nat
  millis : Nat
deriving DecidableEq

-- Chronological (mixed-radix) key of a timestamp: for in-range fields it
-- orders exactly like the ISO-8601 string of the instant.
def dtKey (t : UtcTime) : Nat :=
  (((((t.year * 13 + t.month) * 32 + t.day) * 24 + t.hour) * 60 + t.minute) * 60 + t.second)
      * 1000 + t.millis

def ddigit (n : Nat) : Char := Char.ofNat (48 + n % 10)

-- The YYYY-MM-DD rendering of a civil date, the date part of toISOString.
def dateChars (y m d : Nat) : List Char :=
  [ddigit (y / 1000), ddigit (y / 100), ddigit (y / 10), ddigit y, '-',
   ddigit (m / 10), ddigit m, '-', ddigit (d / 10), ddigit d]

-- getDateStr: new Date(s).toISOString().split('T')[0] for a stored ISO
-- timestamp, i.e. the YYYY-MM-DD rendering of its UTC civil date.
def getDateStr (t : UtcTime) : String :=
  String.mk (dateChars t.year t.month t.day)

def isLeap (y : Nat) : Bool := (y % 4 = 0 && y % 100 ≠ 0) || y % 400 = 0

def daysInMonth (y m : Nat) : Nat :=
  if m = 2 then (if isLeap y then 29 else 28)
  else if m = 4 ∨ m = 6 ∨ m = 9 ∨ m = 11 then 30
  else 31

-- Successor calendar day in the proleptic Gregorian calendar.
def nextDay (y m d : Nat) : Nat × Nat × Nat :=
  if d < daysInMonth y m then (y, m, d + 1)
  else if m < 12 then (y, m + 1, 1)
  else (y + 1, 1, 1)

def nextDayStr (t : UtcTime) : String :=
  String.mk (dateChars (nextDay t.year t.month t.day).1
    (nextDay t.year t.month t.day).2.1 (nextDay t.year t.month t.day).2.2)

/-! ## The file-backed variant: records, POST handler, list endpoint
    (part_000 lines 316-364) -/

structure FileActivity where
  id : Nat
  content : String
  category : String
  created_at : UtcTime
deriving DecidableEq

inductive PostResult where
  | unauthorized
  | badRequest
  | created (a : FileActivity)
deriving DecidableEq

-- HTTP status of each POST outcome (401 Unauthorized json, 400 json with
-- the structured reason Content required, 200 with the created record).
def statusOf : PostResult → Nat
  | PostResult.unauthorized => 401
  | PostResult.badRequest => 400
  | PostResult.created _ => 200

-- category || 'general' (empty string is falsy).
def catOrDefault (c : Option String) : String :=
  match c with
  | none => "general"
  | some s => if s = "" then "general" else s

-- POST /api/activities of the file-backed variant: auth check, content
-- check, then id := Date.now() (epoch milliseconds) and unshift.
def postActivity (cfg : AppConfig) (req : Req) (st : List FileActivity)
    (nowMs : Nat) (nowT : UtcTime) : PostResult × List FileActivity :=
  if postAuthOk req cfg = false then (PostResult.unauthorized, st)
  else
    match req.body.content with
    | none => (PostResult.badRequest, st)
    | some c =>
      if c = "" then (PostResult.badRequest, st)
      else
        let a : FileActivity := ⟨nowMs, c, catOrDefault req.body.category, nowT⟩
        (PostResult.created a, a :: st)

-- activities.filter(a => getDateStr(a.created_at) === date).
def fileDateFilter (date : String) (recs : List FileActivity) : List FileActivity :=
  recs.filter (fun a => getDateStr a.created_at == date)

-- filter(a => a.content.toLowerCase().includes(search) ||
--             a.category.toLowerCase().includes(search)).
def fileSearchFilter (search : List Char) (recs : List FileActivity) : List FileActivity :=
  recs.filter (fun a =>
    containsL search (a.content.data.map lowerCh) ||
    containsL search (a.category.data.map lowerCh))

-- if (date) ...: the date filter applies only when the parameter is a
-- non-empty (truthy) string.
def fileDateOpt (date : String) (recs : List FileActivity) : List FileActivity :=
  if date = "" then recs else fileDateFilter date recs

-- if (search) ...: search is (req.query.q || "").toLowerCase().
def fileSearchOpt (search : List Char) (recs : List FileActivity) : List FileActivity :=
  if search = [] then recs else fileSearchFilter search recs

-- GET /api/activities of the file-backed variant (part_000 lines 344-364):
-- limit/offset parsing, optional date filter, optional lowercased search
-- filter, then filtered.slice(offset, offset + limit); no sorting happens.
def fileList (recs : List FileActivity) (qlimit qoffset : Option String)
    (q date : String) : List FileActivity :=
  jsSlice (fileSearchOpt (q.data.map lowerCh) (fileDateOpt date recs))
    (effOffset qoffset) (effOffset qoffset + effectiveLimit qlimit)

-- Stored-order-descending predicate for file-backed record lists.
def SortedDescFile (l : List FileActivity) : Prop :=
  l.Pairwise (fun a b => dtKey b.created_at ≤ dtKey a.created_at)

/-! ## The Postgres-backed variant: list query and serial ids
    (index.js lines 18-26 and 140-172) -/

structure PgActivity where
  id : Nat
  content : String
  category : String
  details : Option String
  created_at : Int
deriving DecidableEq

def insertByCreated (a : PgActivity) : List PgActivity → List PgActivity
  | [] => [a]
  | b :: bs =>
    if b.created_at ≤ a.created_at then a :: b :: bs else b :: insertByCreated a bs

-- Semantics of ORDER BY created_at DESC: a stable sort on the key.
def sortByCreatedDesc : List PgActivity → List PgActivity
  | [] => []
  | a :: rest => insertByCreated a (sortByCreatedDesc rest)

-- Optional WHERE clause on the abstract local day key (the SQL expression
-- DATE(created_at AT TIME ZONE ...) = date), applied when date is truthy.
def pgDateOpt (localDay : Int → String) (date : String) (recs : List PgActivity) :
    List PgActivity :=
  if date = "" then recs else recs.filter (fun a => localDay a.created_at == date)

-- Optional WHERE clause content ILIKE q OR category ILIKE q (substring,
-- case-insensitive), applied when the search parameter is truthy.
def pgSearchOpt (q : String) (recs : List PgActivity) : List PgActivity :=
  if q = "" then recs
  else recs.filter (fun a => ciOccurs q.data a.content.data || ciOccurs q.data a.category.data)

-- GET /api/activities of the Postgres variant: the WHERE clauses, then
-- ORDER BY created_at DESC LIMIT lim OFFSET off.
def pgList (recs : List PgActivity) (localDay : Int → String) (date q : String)
    (lim off : Int) : List PgActivity :=
  ((sortByCreatedDesc (pgSearchOpt q (pgDateOpt localDay date recs))).drop off.toNat).take
    lim.toNat

def SortedDescPg (l : List PgActivity) : Prop :=
  l.Pairwise (fun a b => b.created_at ≤ a.created_at)

-- The id handed out by the i-th INSERT after the BIGSERIAL sequence stands
-- at `c`: sequences increment by one per row and never reuse a value.
def serialIdAfter (c i : Nat) : Nat := c + 1 + i


/-! ## Helper lemmas: prefix tests and escapeHtml -/

lemma startsWithL_append (p x : List Char) : startsWithL p (p ++ x) = true := by
  induction p with
  | nil => rfl
  | cons c cs ih => simp [startsWithL, ih]

lemma replaceAllCh_append (t : Char) (rep a b : List Char) :
    replaceAllCh t rep (a ++ b) = replaceAllCh t rep a ++ replaceAllCh t rep b := by
  induction a with
  | nil => rfl
  | cons c cs ih =>
    simp only [List.cons_append, replaceAllCh, ih]
    by_cases h : c = t <;> simp [h, ih]

-- The chained global replaces of escapeHtml act character by character.
lemma escChain (l : List Char) :
    replaceAllCh '"' "&quot;".data (replaceAllCh '>' "&gt;".data
      (replaceAllCh '<' "&lt;".data (replaceAllCh '&' "&amp;".data l))) = escList l := by
  induction l with
  | nil => rfl
  | cons c cs ih =>
    by_cases h1 : c = '&'
    · subst h1
      have e1 : replaceAllCh '&' "&amp;".data ('&' :: cs)
          = "&amp;".data ++ replaceAllCh '&' "&amp;".data cs := by simp [replaceAllCh]
      rw [e1, replaceAllCh_append, replaceAllCh_append, replaceAllCh_append, ih]
      rfl
    · by_cases h2 : c = '<'
      · subst h2
        have e1 : replaceAllCh '&' "&amp;".data ('<' :: cs)
            = '<' :: replaceAllCh '&' "&amp;".data cs := by simp [replaceAllCh]
        have e2 : replaceAllCh '<' "&lt;".data
              ('<' :: replaceAllCh '&' "&amp;".data cs)
            = "&lt;".data ++ replaceAllCh '<' "&lt;".data
                (replaceAllCh '&' "&amp;".data cs) := by simp [replaceAllCh]
        rw [e1, e2, replaceAllCh_append, replaceAllCh_append, ih]
        rfl
      · by_cases h3 : c = '>'
        · subst h3
          have e1 : replaceAllCh '&' "&amp;".data ('>' :: cs)
              = '>' :: replaceAllCh '&' "&amp;".data cs := by simp [replaceAllCh]
          have e2 : replaceAllCh '<' "&lt;".data
                ('>' :: replaceAllCh '&' "&amp;".data cs)
              = '>' :: replaceAllCh '<' "&lt;".data
                  (replaceAllCh '&' "&amp;".data cs) := by simp [replaceAllCh]
          have e3 : replaceAllCh '>' "&gt;".data ('>' ::
                replaceAllCh '<' "&lt;".data (replaceAllCh '&' "&amp;".data cs))
              = "&gt;".data ++ replaceAllCh '>' "&gt;".data
                  (replaceAllCh '<' "&lt;".data
                    (replaceAllCh '&' "&amp;".data cs)) := by simp [replaceAllCh]
          rw [e1, e2, e3, replaceAllCh_append, ih]
          rfl
        · by_cases h4 : c = '"'
          · subst h4
            have e1 : replaceAllCh '&' "&amp;".data ('"' :: cs)
                = '"' :: replaceAllCh '&' "&amp;".data cs := by simp [replaceAllCh]
            have e2 : replaceAllCh '<' "&lt;".data
                  ('"' :: replaceAllCh '&' "&amp;".data cs)
                = '"' :: replaceAllCh '<' "&lt;".data
                    (replaceAllCh '&' "&amp;".data cs) := by simp [replaceAllCh]
            have e3 : replaceAllCh '>' "&gt;".data ('"' ::
                  replaceAllCh '<' "&lt;".data (replaceAllCh '&' "&amp;".data cs))
                = '"' :: replaceAllCh '>' "&gt;".data
                    (replaceAllCh '<' "&lt;".data
                      (replaceAllCh '&' "&amp;".data cs)) := by simp [replaceAllCh]
            have e4 : replaceAllCh '"' "&quot;".data ('"' ::
                  replaceAllCh '>' "&gt;".data (replaceAllCh '<' "&lt;".data
                    (replaceAllCh '&' "&amp;".data cs)))
                = "&quot;".data ++ replaceAllCh '"' "&quot;".data
                    (replaceAllCh '>' "&gt;".data (replaceAllCh '<' "&lt;".data
                      (replaceAllCh '&' "&amp;".data cs))) := by simp [replaceAllCh]
            rw [e1, e2, e3, e4, ih]
            rfl
          · have e1 : replaceAllCh '&' "&amp;".data (c :: cs)
                = c :: replaceAllCh '&' "&amp;".data cs := by simp [replaceAllCh, h1]
            have e2 : replaceAllCh '<' "&lt;".data
                  (c :: replaceAllCh '&' "&amp;".data cs)
                = c :: replaceAllCh '<' "&lt;".data
                    (replaceAllCh '&' "&amp;".data cs) := by simp [replaceAllCh, h2]
            have e3 : replaceAllCh '>' "&gt;".data (c ::
                  replaceAllCh '<' "&lt;".data (replaceAllCh '&' "&amp;".data cs))
                = c :: replaceAllCh '>' "&gt;".data
                    (replaceAllCh '<' "&lt;".data
                      (replaceAllCh '&' "&amp;".data cs)) := by simp [replaceAllCh, h3]
            have e4 : replaceAllCh '"' "&quot;".data (c ::
                  replaceAllCh '>' "&gt;".data (replaceAllCh '<' "&lt;".data
                    (replaceAllCh '&' "&amp;".data cs)))
                = c :: replaceAllCh '"' "&quot;".data
                    (replaceAllCh '>' "&gt;".data (replaceAllCh '<' "&lt;".data
                      (replaceAllCh '&' "&amp;".data cs))) := by simp [replaceAllCh, h4]
            rw [e1, e2, e3, e4, ih]
            simp [escList, escChar, h1, h2, h3, h4]

lemma escapeHtml_data (s : String) : (escapeHtml s).data = escList s.data :=
  escChain s.data

lemma escChar_no_special (c : Char) :
    '<' ∉ escChar c ∧ '>' ∉ escChar c ∧ '"' ∉ escChar c := by
  unfold escChar
  by_cases h1 : c = '&'
  · subst h1; decide
  · rw [if_neg h1]
    by_cases h2 : c = '<'
    · subst h2; decide
    · rw [if_neg h2]
      by_cases h3 : c = '>'
      · subst h3; decide
      · rw [if_neg h3]
        by_cases h4 : c = '"'
        · subst h4; decide
        · rw [if_neg h4]
          refine ⟨?_, ?_, ?_⟩ <;> simp only [List.mem_singleton]
          · exact fun e => h2 e.symm
          · exact fun e => h3 e.symm
          · exact fun e => h4 e.symm

lemma escList_no_special (l : List Char) :
    '<' ∉ escList l ∧ '>' ∉ escList l ∧ '"' ∉ escList l := by
  induction l with
  | nil => simp [escList]
  | cons c cs ih =>
    have hc := escChar_no_special c
    simp only [escList, List.mem_append, not_or]
    exact ⟨⟨hc.1, ih.1⟩, ⟨hc.2.1, ih.2.1⟩, ⟨hc.2.2, ih.2.2⟩⟩

lemma ampOk_escChar (c : Char) (l : List Char) (h : ampOk l = true) :
    ampOk (escChar c ++ l) = true := by
  unfold escChar
  by_cases h1 : c = '&'
  · subst h1; rw [if_pos rfl]; simp [ampOk, startsWithL, h]
  · rw [if_neg h1]
    by_cases h2 : c = '<'
    · subst h2; rw [if_pos rfl]; simp [ampOk, startsWithL, h]
    · rw [if_neg h2]
      by_cases h3 : c = '>'
      · subst h3; rw [if_pos rfl]; simp [ampOk, startsWithL, h]
      · rw [if_neg h3]
        by_cases h4 : c = '"'
        · subst h4; rw [if_pos rfl]; simp [ampOk, startsWithL, h]
        · rw [if_neg h4]
          show ampOk (c :: l) = true
          simp [ampOk, h1, h]

lemma escList_ampOk (l : List Char) : ampOk (escList l) = true := by
  induction l with
  | nil => rfl
  | cons c cs ih => exact ampOk_escChar c _ ih

/-! ## Helper lemmas: the literal-pattern round trip -/

lemma literalOfPattern_regexEscape (l : List Char) :
    literalOfPattern (regexEscape l) = some l := by
  induction l with
  | nil => rfl
  | cons c cs ih =>
    by_cases h : isMeta c = true
    · simp [regexEscape, h, literalOfPattern, ih]
    · have hc : ¬ c = '\\' := by
        intro e; subst e; exact h (by decide)
      have hre : regexEscape (c :: cs) = c :: regexEscape cs := by
        simp [regexEscape, h]
      rw [hre, literalOfPattern.eq_def]
      simp [h, hc, ih]

/-! ## Helper lemmas: markAll -/

lemma ciStartsWith_length : ∀ {pat l : List Char}, ciStartsWith pat l = true →
    pat.length ≤ l.length := by
  intro pat
  induction pat with
  | nil => intro l _; simp
  | cons p ps ih =>
    intro l h
    cases l with
    | nil => simp [ciStartsWith] at h
    | cons c cs =>
      simp only [ciStartsWith, Bool.and_eq_true] at h
      simpa using ih h.2

lemma ciStartsWith_take : ∀ {pat l : List Char}, ciStartsWith pat l = true →
    (l.take pat.length).map lowerCh = pat.map lowerCh := by
  intro pat
  induction pat with
  | nil => intro l _; simp
  | cons p ps ih =>
    intro l h
    cases l with
    | nil => simp [ciStartsWith] at h
    | cons c cs =>
      simp only [ciStartsWith, Bool.and_eq_true, beq_iff_eq] at h
      simp [List.take, ih h.2, h.1]

lemma marksOf_markAllAux (pat : List Char) (hp : pat ≠ []) :
    ∀ fuel l, l.length ≤ fuel → MarksOf pat l (markAllAux pat fuel l) := by
  intro fuel
  induction fuel with
  | zero =>
    intro l hl
    have : l = [] := by cases l <;> simp_all
    subst this
    exact MarksOf.nil
  | succ fuel ih =>
    intro l hl
    cases l with
    | nil => exact MarksOf.nil
    | cons c rest =>
      simp only [markAllAux]
      by_cases h : ciStartsWith pat (c :: rest) = true
      · rw [if_pos h]
        have hpcons : 1 ≤ pat.length := by
          cases pat with
          | nil => exact absurd rfl hp
          | cons _ _ => simp
        have hlen : ((c :: rest).drop pat.length).length ≤ fuel := by
          simp only [List.length_drop]
          simp only [List.length_cons] at hl ⊢
          omega
        have hm := MarksOf.mark ((c :: rest).take pat.length) ((c :: rest).drop pat.length)
          (markAllAux pat fuel ((c :: rest).drop pat.length))
          (ciStartsWith_take h) (ih _ hlen)
        rw [List.take_append_drop] at hm
        exact hm
      · rw [if_neg h]
        refine MarksOf.keep c rest _ (ih rest ?_)
        simp only [List.length_cons] at hl
        omega

lemma marksOf_markAll (pat l : List Char) (hp : pat ≠ []) :
    MarksOf pat l (markAll pat l) :=
  marksOf_markAllAux pat hp l.length l (le_refl _)

lemma markAllAux_eq_of_not_occurs (pat : List Char) :
    ∀ fuel l, ciOccurs pat l = false → markAllAux pat fuel l = l := by
  intro fuel
  induction fuel with
  | zero => intro l _; cases l <;> simp [markAllAux]
  | succ fuel ih =>
    intro l h
    cases l with
    | nil => simp [markAllAux]
    | cons c rest =>
      simp only [ciOccurs, Bool.or_eq_false_iff] at h
      simp only [markAllAux]
      rw [if_neg (by simp [h.1]), ih rest h.2]

lemma length_markAllAux_ge (pat : List Char) :
    ∀ fuel l, l.length ≤ (markAllAux pat fuel l).length := by
  intro fuel
  induction fuel with
  | zero => intro l; cases l <;> simp [markAllAux]
  | succ fuel ih =>
    intro l
    cases l with
    | nil => simp [markAllAux]
    | cons c rest =>
      simp only [markAllAux]
      by_cases h : ciStartsWith pat (c :: rest) = true
      · rw [if_pos h]
        have h2 := ih ((c :: rest).drop pat.length)
        have e1 : markOpen.length = 6 := rfl
        have e2 : markClose.length = 7 := rfl
        simp only [List.length_append, List.length_take, List.length_drop,
          List.length_cons, e1, e2] at h2 ⊢
        omega
      · rw [if_neg h]
        simp only [List.length_cons]
        exact Nat.succ_le_succ (ih rest)

lemma length_markAllAux_gt (pat : List Char) (hp : pat ≠ []) :
    ∀ fuel l, l.length ≤ fuel → ciOccurs pat l = true →
      l.length < (markAllAux pat fuel l).length := by
  intro fuel
  induction fuel with
  | zero =>
    intro l hl ho
    have : l = [] := by cases l <;> simp_all
    subst this
    cases pat with
    | nil => exact absurd rfl hp
    | cons p ps => simp [ciOccurs, ciStartsWith] at ho
  | succ fuel ih =>
    intro l hl ho
    cases l with
    | nil =>
      cases pat with
      | nil => exact absurd rfl hp
      | cons p ps => simp [ciOccurs, ciStartsWith] at ho
    | cons c rest =>
      simp only [markAllAux]
      by_cases h : ciStartsWith pat (c :: rest) = true
      · rw [if_pos h]
        have hple := ciStartsWith_length h
        have hpcons : 1 ≤ pat.length := by
          cases pat with
          | nil => exact absurd rfl hp
          | cons _ _ => simp
        have h2 := length_markAllAux_ge pat fuel ((c :: rest).drop pat.length)
        have e1 : markOpen.length = 6 := rfl
        have e2 : markClose.length = 7 := rfl
        simp only [List.length_append, List.length_take, List.length_drop,
          List.length_cons, e1, e2] at h2 hple ⊢
        omega
      · rw [if_neg h]
        simp only [ciOccurs, Bool.or_eq_true] at ho
        rcases ho with ho | ho
        · exact absurd ho h
        · have := ih rest (by simp only [List.length_cons] at hl; omega) ho
          simp only [List.length_cons]
          omega

lemma markAll_eq_iff (pat l : List Char) (hp : pat ≠ []) :
    markAll pat l = l ↔ ciOccurs pat l = false := by
  constructor
  · intro h
    by_cases ho : ciOccurs pat l = true
    · exfalso
      have := length_markAllAux_gt pat hp l.length l (le_refl _) ho
      rw [show markAllAux pat l.length l = markAll pat l from rfl, h] at this
      exact lt_irrefl _ this
    · simpa using ho
  · intro h
    exact markAllAux_eq_of_not_occurs pat l.length l h

lemma marksOf_mem {pat l o : List Char} (h : MarksOf pat l o) :
    ∀ c ∈ o, c ∈ l ∨ c ∈ markOpen ∨ c ∈ markClose := by
  induction h with
  | nil => intro c hc; simp at hc
  | keep a l2 o2 _ ih =>
    intro c hc
    rcases List.mem_cons.mp hc with rfl | hc2
    · exact Or.inl (List.mem_cons_self _ _)
    · rcases ih c hc2 with h1 | h2
      · exact Or.inl (List.mem_cons_of_mem _ h1)
      · exact Or.inr h2
  | mark m l2 o2 hm _ ih =>
    intro c hc
    simp only [List.mem_append] at hc
    rcases hc with ((hc | hc) | hc) | hc
    · exact Or.inr (Or.inl hc)
    · exact Or.inl (List.mem_append_left _ hc)
    · exact Or.inr (Or.inr hc)
    · rcases ih c hc with h1 | h2
      · exact Or.inl (List.mem_append_right _ h1)
      · exact Or.inr h2

lemma string_data_ne_nil {s : String} (h : s ≠ "") : s.data ≠ [] := by
  intro hd
  apply h
  cases s with
  | mk d => cases hd; rfl

/-! ## Helper lemmas: date rendering -/

lemma ddigit_mod {a b : Nat} (h : ddigit a = ddigit b) : a % 10 = b % 10 := by
  have key : ∀ x, x < 10 → ∀ y, y < 10 → Char.ofNat (48 + x) = Char.ofNat (48 + y) → x = y := by
    decide
  exact key _ (Nat.mod_lt _ (by decide)) _ (Nat.mod_lt _ (by decide)) h

lemma dateChars_inj {y m d y2 m2 d2 : Nat} (hy : y < 10000) (hy2 : y2 < 10000)
    (hm : m < 100) (hm2 : m2 < 100) (hd : d < 100) (hd2 : d2 < 100)
    (h : dateChars y m d = dateChars y2 m2 d2) : y = y2 ∧ m = m2 ∧ d = d2 := by
  simp only [dateChars, List.cons.injEq, and_true] at h
  obtain ⟨e1, e2, e3, e4, -, e5, e6, -, e7, e8⟩ := h
  have q1 := ddigit_mod e1
  have q2 := ddigit_mod e2
  have q3 := ddigit_mod e3
  have q4 := ddigit_mod e4
  have q5 := ddigit_mod e5
  have q6 := ddigit_mod e6
  have q7 := ddigit_mod e7
  have q8 := ddigit_mod e8
  refine ⟨by omega, by omega, by omega⟩

lemma daysInMonth_le (y m : Nat) : daysInMonth y m ≤ 31 := by
  unfold daysInMonth
  split_ifs <;> omega

lemma getDateStr_ne_nextDayStr {t : UtcTime} (hy : t.year < 9999)
    (hm : t.month ≤ 12) (hd : t.day ≤ daysInMonth t.year t.month) :
    getDateStr t ≠ nextDayStr t := by
  have hdm := daysInMonth_le t.year t.month
  unfold getDateStr nextDayStr nextDay
  split_ifs with h1 h2
  · intro he
    injection he with he2
    have he3 : dateChars t.year t.month t.day
        = dateChars t.year t.month (t.day + 1) := he2
    have := dateChars_inj (by omega) (by omega) (by omega) (by omega) (by omega)
      (by omega) he3
    omega
  · intro he
    injection he with he2
    have he3 : dateChars t.year t.month t.day
        = dateChars t.year (t.month + 1) 1 := he2
    have := dateChars_inj (by omega) (by omega) (by omega) (by omega) (by omega)
      (by omega) he3
    omega
  · intro he
    injection he with he2
    have he3 : dateChars t.year t.month t.day
        = dateChars (t.year + 1) 1 1 := he2
    have := dateChars_inj (by omega) (by omega) (by omega) (by omega) (by omega)
      (by omega) he3
    omega

/-! ## Helper lemmas: sorting and slicing -/

lemma mem_insertByCreated {x a : PgActivity} :
    ∀ {l : List PgActivity}, x ∈ insertByCreated a l → x = a ∨ x ∈ l := by
  intro l
  induction l with
  | nil =>
    intro h
    simp [insertByCreated] at h
    exact Or.inl h
  | cons b bs ih =>
    intro h
    by_cases hc : b.created_at ≤ a.created_at
    · simp only [insertByCreated] at h
      rw [if_pos hc] at h
      rcases List.mem_cons.mp h with rfl | h2
      · exact Or.inl rfl
      · exact Or.inr h2
    · simp only [insertByCreated] at h
      rw [if_neg hc] at h
      rcases List.mem_cons.mp h with rfl | h2
      · exact Or.inr (List.mem_cons_self _ _)
      · rcases ih h2 with h3 | h4
        · exact Or.inl h3
        · exact Or.inr (List.mem_cons_of_mem _ h4)

lemma sortedDesc_insertByCreated {a : PgActivity} :
    ∀ {l : List PgActivity}, SortedDescPg l → SortedDescPg (insertByCreated a l) := by
  intro l
  induction l with
  | nil => intro _; simp [insertByCreated, SortedDescPg]
  | cons b bs ih =>
    intro h
    unfold SortedDescPg at h
    rw [List.pairwise_cons] at h
    obtain ⟨hb, hbs⟩ := h
    by_cases hc : b.created_at ≤ a.created_at
    · simp only [insertByCreated]
      rw [if_pos hc]
      unfold SortedDescPg
      rw [List.pairwise_cons]
      constructor
      · intro x hx
        rcases List.mem_cons.mp hx with rfl | hx2
        · exact hc
        · exact le_trans (hb x hx2) hc
      · exact List.pairwise_cons.mpr ⟨hb, hbs⟩
    · simp only [insertByCreated]
      rw [if_neg hc]
      unfold SortedDescPg
      rw [List.pairwise_cons]
      constructor
      · intro x hx
        rcases mem_insertByCreated hx with rfl | hx2
        · exact le_of_not_le hc
        · exact hb x hx2
      · exact ih hbs

lemma sortedDesc_sortByCreatedDesc (l : List PgActivity) :
    SortedDescPg (sortByCreatedDesc l) := by
  induction l with
  | nil => simp [sortByCreatedDesc, SortedDescPg]
  | cons a rest ih =>
    simp only [sortByCreatedDesc]
    exact sortedDesc_insertByCreated ih

lemma jsSlice_sublist {α : Type} (l : List α) (s e : Int) :
    List.Sublist (jsSlice l s e) l :=
  (List.drop_sublist _ _).trans (List.take_sublist _ _)

lemma jsSlice_length_le {α : Type} (l : List α) (off lim : Int) (h : 0 ≤ lim) :
    (jsSlice l off (off + lim)).length ≤ lim.toNat := by
  simp only [jsSlice, jsSliceIdx, List.length_drop, List.length_take]
  split_ifs <;> omega

lemma fileDateOpt_sublist (date : String) (recs : List FileActivity) :
    List.Sublist (fileDateOpt date recs) recs := by
  unfold fileDateOpt fileDateFilter
  split_ifs
  · exact List.Sublist.refl _
  · exact List.filter_sublist _

lemma fileSearchOpt_sublist (search : List Char) (recs : List FileActivity) :
    List.Sublist (fileSearchOpt search recs) recs := by
  unfold fileSearchOpt fileSearchFilter
  split_ifs
  · exact List.Sublist.refl _
  · exact List.filter_sublist _

lemma fileList_sublist (recs : List FileActivity) (ql qo : Option String)
    (q date : String) : List.Sublist (fileList recs ql qo q date) recs := by
  unfold fileList
  exact (jsSlice_sublist _ _ _).trans
    ((fileSearchOpt_sublist _ _).trans (fileDateOpt_sublist _ _))

/-! ## Helper lemmas: the POST handler -/

lemma postActivity_created {cfg : AppConfig} {req : Req} {st : List FileActivity}
    {nowMs : Nat} {nowT : UtcTime} {a : FileActivity} {l2 : List FileActivity}
    (h : postActivity cfg req st nowMs nowT = (PostResult.created a, l2)) :
    a.id = nowMs ∧ l2 = a :: st := by
  unfold postActivity at h
  by_cases h1 : postAuthOk req cfg = false
  · rw [if_pos h1] at h
    simp at h
  · rw [if_neg h1] at h
    cases hc : req.body.content with
    | none => rw [hc] at h; simp at h
    | some c =>
      rw [hc] at h
      dsimp only at h
      by_cases h2 : c = ""
      · rw [if_pos h2] at h; simp at h
      · rw [if_neg h2] at h
        simp only [Prod.mk.injEq, PostResult.created.injEq] at h
        obtain ⟨ha, hl⟩ := h
        subst ha
        exact ⟨rfl, hl.symm⟩

lemma postActivity_empty_cases (cfg : AppConfig) (req : Req) (st : List FileActivity)
    (nowMs : Nat) (nowT : UtcTime)
    (hc : req.body.content = none ∨ req.body.content = some "") :
    postActivity cfg req st nowMs nowT =
      (if postAuthOk req cfg = false then PostResult.unauthorized
       else PostResult.badRequest, st) := by
  unfold postActivity
  by_cases h1 : postAuthOk req cfg = false
  · rw [if_pos h1, if_pos h1]
  · rw [if_neg h1, if_neg h1]
    rcases hc with hc | hc
    · rw [hc]
    · rw [hc]
      dsimp only
      rw [if_pos rfl]

/-! ## Concrete requests, records and configurations used by the closed
    counterexample and witness theorems -/

def tSample : UtcTime := ⟨2024, 5, 1, 12, 0, 0, 0⟩
def cfgSecret : AppConfig := ⟨some "secret"⟩
def reqBearerOnly : Req := ⟨none, some "Bearer secret", ⟨none, none, none⟩⟩
def reqNoAuth : Req := ⟨none, none, ⟨none, none, none⟩⟩
def reqEmptyAuth : Req := ⟨some "secret", none, ⟨none, none, none⟩⟩
def reqCatEmpty : Req := ⟨some "secret", none, ⟨some "run", some "", none⟩⟩
def reqFirst : Req := ⟨some "secret", none, ⟨some "first", none, none⟩⟩
def reqSecond : Req := ⟨some "secret", none, ⟨some "second", none, none⟩⟩
def recOlder : FileActivity := ⟨1, "older", "general", ⟨2024, 1, 2, 10, 0, 0, 0⟩⟩
def recNewer : FileActivity := ⟨2, "newer", "general", ⟨2024, 1, 3, 10, 0, 0, 0⟩⟩
def recBoundary : FileActivity := ⟨10, "x", "general", ⟨2024, 3, 5, 23, 59, 0, 0⟩⟩
def recSameMsA : FileActivity := ⟨1714564800000, "first", "general", tSample⟩
def recSameMsB : FileActivity := ⟨1714564800000, "second", "general", tSample⟩
def recW1 : FileActivity := ⟨1000, "first", "general", tSample⟩
def recW2 : FileActivity := ⟨2000, "second", "general", tSample⟩
def manyRecs : List FileActivity := List.replicate 202 recOlder

/-! ## Claim C1 -/

/-- C1, counterexample: a request carrying only a correct bearer header is
authorized by the spec predicate (cookie OR bearer), but the requireAuth
middleware guarding GET /, GET /api/activities and GET /api/activities/:id
checks only the cookie and rejects it with 401. -/
theorem claim_C1_counterexample :
    specAuthorized reqBearerOnly "secret" = true ∧
    requireAuthAllows reqBearerOnly cfgSecret = false := by decide

/-- C1, amended: with a configured secret, the guard of the page and read
endpoints (requireAuth) authorizes a request exactly when the app_token
cookie equals the secret; the cookie-or-bearer disjunction holds only for
the inline auth check of POST /api/activities. -/
theorem claim_C1_amended : ∀ (secret : String) (req : Req),
    (requireAuthAllows req ⟨some secret⟩ = true ↔ req.cookieToken = some secret) ∧
    (postAuthOk req ⟨some secret⟩ = true ↔
      (req.cookieToken = some secret ∨ req.authHeader = some ("Bearer " ++ secret))) := by
  intro secret req
  constructor
  · simp [requireAuthAllows]
  · simp [postAuthOk, bearerOf]

/-- C1, witness: a request whose cookie equals the configured secret is
authorized by requireAuth. -/
theorem claim_C1_witness :
    requireAuthAllows ⟨some "tok", none, ⟨none, none, none⟩⟩ ⟨some "tok"⟩ = true :=
  (claim_C1_amended "tok" ⟨some "tok", none, ⟨none, none, none⟩⟩).1.mpr rfl

/-! ## Claim C2 -/

/-- C2, divergence witness: with APP_TOKEN unset (undefined), a request
carrying no app_token cookie at all is authorized by requireAuth (the
JavaScript comparison undefined === undefined is true), and the POST
/api/activities auth check passes for the same reason, so the handler even
creates a record; the claim (and the spec) require that no request be
authorized in this configuration. -/
theorem claim_C2_bug :
    requireAuthAllows reqNoAuth ⟨none⟩ = true ∧
    postAuthOk ⟨none, none, ⟨some "hi", none, none⟩⟩ ⟨none⟩ = true ∧
    (postActivity ⟨none⟩ ⟨none, none, ⟨some "hi", none, none⟩⟩ [] 3 tSample).1 =
      PostResult.created ⟨3, "hi", "general", tSample⟩ := by decide

/-! ## Claim C3 -/

set_option maxRecDepth 8000 in
/-- C3, counterexample: a negative requested limit is not clamped below:
limit=-1 gives effective limit -1 (below 1), and via the negative-index
semantics of Array.prototype.slice a store of 202 records then returns 201
records, more than the claimed 200-record bound. -/
theorem claim_C3_counterexample :
    effectiveLimit (some "-1") = -1 ∧
    ¬ (1 ≤ effectiveLimit (some "-1")) ∧
    (fileList manyRecs (some "-1") none "" "").length = 201 := by
  refine ⟨by decide, by decide, ?_⟩
  rfl

/-- C3, amended: the effective limit never exceeds 200; an absent or
non-numeric limit (parseInt NaN) and a zero limit default to 50; a positive
requested limit n yields min n 200, which lies in [1, 200]; and whenever
the effective limit is at least 1 the endpoint returns at most 200 records.
A negative requested limit, however, passes through unclamped (see the
counterexample). -/
theorem claim_C3_amended : ∀ q : Option String,
    effectiveLimit q ≤ 200 ∧
    (parseIntJS q = none → effectiveLimit q = 50) ∧
    (parseIntJS q = some 0 → effectiveLimit q = 50) ∧
    (∀ n : Int, parseIntJS q = some n → 1 ≤ n →
      1 ≤ effectiveLimit q ∧ effectiveLimit q = min n 200) ∧
    (∀ (recs : List FileActivity) (qo : Option String) (qs date : String),
      1 ≤ effectiveLimit q → (fileList recs q qo qs date).length ≤ 200) := by
  intro q
  refine ⟨min_le_right _ _, ?_, ?_, ?_, ?_⟩
  · intro h
    unfold effectiveLimit
    rw [h]
    decide
  · intro h
    unfold effectiveLimit
    rw [h]
    decide
  · intro n h hn
    unfold effectiveLimit
    rw [h]
    dsimp only
    rw [if_neg (by omega : ¬ n = 0)]
    exact ⟨by omega, rfl⟩
  · intro recs qo qs date h1
    unfold fileList
    refine le_trans (jsSlice_length_le _ _ _ (by omega)) ?_
    have h200 : effectiveLimit q ≤ 200 := min_le_right _ _
    omega

/-- C3, witness: limit=7 parses to 7 and the effective limit is
min 7 200 = 7, inside [1, 200]. -/
theorem claim_C3_witness :
    1 ≤ effectiveLimit (some "7") ∧ effectiveLimit (some "7") = min 7 200 :=
  (claim_C3_amended (some "7")).2.2.2.1 7 (by decide) (by decide)

/-! ## Claim C4 -/

/-- C4: the date filter of the file-backed variant selects exactly the
records whose created_at, rendered as a calendar day of the variant's
fixed zone (UTC, the zone of toISOString), equals the requested day; in
particular a record timestamped 23:59 on a valid day D is selected under
the day string of D and not under the day string of the successor day
D+1. -/
theorem claim_C4_dateFilter : ∀ (recs : List FileActivity) (D : String) (r : FileActivity),
    (r ∈ fileDateFilter D recs ↔ r ∈ recs ∧ getDateStr r.created_at = D) ∧
    (∀ t : UtcTime, t.year < 9999 → 1 ≤ t.month → t.month ≤ 12 → 1 ≤ t.day →
      t.day ≤ daysInMonth t.year t.month → t.hour = 23 → t.minute = 59 →
      ∀ a : FileActivity, a.created_at = t →
        (a ∈ fileDateFilter (getDateStr t) [a] ∧
         a ∉ fileDateFilter (nextDayStr t) [a])) := by
  intro recs D r
  constructor
  · simp [fileDateFilter, List.mem_filter]
  · intro t hy hm1 hm hd1 hd _ _ a ha
    constructor
    · simp [fileDateFilter, List.mem_filter, ha]
    · intro hmem
      simp only [fileDateFilter, List.mem_filter, List.mem_singleton, beq_iff_eq] at hmem
      rw [ha] at hmem
      exact getDateStr_ne_nextDayStr hy hm hd hmem.2

/-- C4, witness: a record at 2024-03-05T23:59 UTC is selected by the filter
for its own day and not by the filter for 2024-03-06. -/
theorem claim_C4_witness :
    recBoundary ∈ fileDateFilter (getDateStr ⟨2024, 3, 5, 23, 59, 0, 0⟩) [recBoundary] ∧
    recBoundary ∉ fileDateFilter (nextDayStr ⟨2024, 3, 5, 23, 59, 0, 0⟩) [recBoundary] :=
  (claim_C4_dateFilter [] "" recBoundary).2 ⟨2024, 3, 5, 23, 59, 0, 0⟩ (by decide) (by decide)
    (by decide) (by decide) (by decide) rfl rfl recBoundary rfl

/-! ## Claim C5 -/

/-- C5, counterexample: the file-backed GET /api/activities performs no
sorting; a stored record list that is not already newest-first (here the
older record stored in front of the newer one) is returned as stored, so
the response is not ordered by created_at descending. -/
theorem claim_C5_counterexample :
    fileList [recOlder, recNewer] none none "" "" = [recOlder, recNewer] ∧
    ¬ SortedDescFile (fileList [recOlder, recNewer] none none "" "") := by
  have he : fileList [recOlder, recNewer] none none "" "" = [recOlder, recNewer] := by
    decide
  refine ⟨he, ?_⟩
  intro h
  rw [he] at h
  unfold SortedDescFile at h
  rw [List.pairwise_cons] at h
  exact absurd (h.1 recNewer (by simp)) (by decide)

/-- C5, amended: the Postgres variant sorts in the query, so its listing is
descending by created_at for every record set and every filter/limit
combination; the file-backed variant returns a sublist of the stored list
in stored order, hence its listing is descending exactly when the stored
list already is, which the append path (unshift of a record no older than
every stored one) maintains. -/
theorem claim_C5_ordering :
    (∀ (recs : List PgActivity) (localDay : Int → String) (date q : String) (lim off : Int),
       SortedDescPg (pgList recs localDay date q lim off)) ∧
    (∀ (recs : List FileActivity) (ql qo : Option String) (q date : String),
       List.Sublist (fileList recs ql qo q date) recs) ∧
    (∀ (recs : List FileActivity) (ql qo : Option String) (q date : String),
       SortedDescFile recs → SortedDescFile (fileList recs ql qo q date)) ∧
    (∀ (r : FileActivity) (st : List FileActivity), SortedDescFile st →
       (∀ x ∈ st, dtKey x.created_at ≤ dtKey r.created_at) → SortedDescFile (r :: st)) := by
  refine ⟨?_, ?_, ?_, ?_⟩
  · intro recs localDay date q lim off
    unfold pgList
    have hp : List.Pairwise (fun a b : PgActivity => b.created_at ≤ a.created_at)
        (sortByCreatedDesc (pgSearchOpt q (pgDateOpt localDay date recs))) :=
      sortedDesc_sortByCreatedDesc _
    exact hp.sublist ((List.take_sublist _ _).trans (List.drop_sublist _ _))
  · exact fileList_sublist
  · intro recs ql qo q date h
    have hp : List.Pairwise (fun a b : FileActivity =>
        dtKey b.created_at ≤ dtKey a.created_at) recs := h
    exact hp.sublist (fileList_sublist recs ql qo q date)
  · intro r st h1 h2
    exact List.Pairwise.cons h2 h1

/-- C5, witness: on a stored list that is newest-first, the file-backed
listing is itself newest-first. -/
theorem claim_C5_witness :
    SortedDescFile (fileList [recNewer, recOlder] none none "" "") :=
  claim_C5_ordering.2.2.1 [recNewer, recOlder] none none "" ""
    (by unfold SortedDescFile; decide)

/-! ## Claim C6 -/

/-- C6, counterexample: with stored content a&b and active search term a,
the rendered content cell is <mark>a</mark>&<mark>a</mark>mp;b — the
highlighting split the &amp; entity produced by escapeHtml, so the page
emits an unescaped ampersand originating from the stored ampersand
(escaping alone, last conjunct, had produced only well-formed entities). -/
theorem claim_C6_counterexample :
    activityContentHtml "a&b" "a" = some "<mark>a</mark>&<mark>a</mark>mp;b" ∧
    ampOk "<mark>a</mark>&<mark>a</mark>mp;b".data = false ∧
    ampOk (escapeHtml "a&b").data = true := by decide

/-- C6, amended: for every stored content value and every search term the
rendered content cell exists (no exception), it is exactly the escaped
content with some case-insensitive occurrences of the term wrapped in
mark tags, it contains no double quote, the escaped content itself
contains no raw angle bracket or quote and only well-formed entities —
so stored text can never inject markup — but under an active search the
ampersand-escaping guarantee of the claim can be broken (see the
counterexample). -/
theorem claim_C6_escaping : ∀ (content search : String),
    ∃ frag : String,
      activityContentHtml content search = some frag ∧
      (search = "" → frag = escapeHtml content) ∧
      (search ≠ "" → MarksOf search.data (escapeHtml content).data frag.data) ∧
      '"' ∉ frag.data ∧
      '<' ∉ (escapeHtml content).data ∧
      '>' ∉ (escapeHtml content).data ∧
      '"' ∉ (escapeHtml content).data ∧
      ampOk (escapeHtml content).data = true := by
  intro content search
  have hsafe := escList_no_special content.data
  rw [← escapeHtml_data content] at hsafe
  have hamp : ampOk (escapeHtml content).data = true := by
    rw [escapeHtml_data]
    exact escList_ampOk _
  by_cases hs : search = ""
  · subst hs
    exact ⟨escapeHtml content, rfl, fun _ => rfl, fun h => absurd rfl h, hsafe.2.2,
      hsafe.1, hsafe.2.1, hsafe.2.2, hamp⟩
  · have hne : search.data ≠ [] := string_data_ne_nil hs
    have hmarks : MarksOf search.data (escapeHtml content).data
        (markAll search.data (escapeHtml content).data) :=
      marksOf_markAll _ _ hne
    refine ⟨String.mk (markAll search.data (escapeHtml content).data), ?_,
      fun h => absurd h hs, fun _ => hmarks, ?_, hsafe.1, hsafe.2.1, hsafe.2.2, hamp⟩
    · unfold activityContentHtml highlightSearch
      rw [if_neg hs, literalOfPattern_regexEscape]
    · intro hq
      rcases marksOf_mem hmarks '"' hq with h1 | h2 | h3
      · exact hsafe.2.2 h1
      · exact absurd h2 (by decide)
      · exact absurd h3 (by decide)

/-- C6, witness: with no active search the rendered content cell is exactly
the escaped content. -/
theorem claim_C6_witness :
    ∃ frag : String, activityContentHtml "x" "" = some frag ∧ frag = escapeHtml "x" := by
  obtain ⟨f, h1, h2, -, -, -, -, -, -⟩ := claim_C6_escaping "x" ""
  exact ⟨f, h1, h2 rfl⟩

/-! ## Claim C7 -/

/-- C7: highlightSearch never throws for any search string (the compiled
pattern always exists), the escaping of the term makes the pattern denote
the literal term (no metacharacter of the term acts as an operator), and
for a non-empty term the result is the leftmost non-overlapping global
wrapping of the case-insensitive occurrences of the literal term in mark
tags: the output is the input with matching segments wrapped (MarksOf),
and the output differs from the input exactly when a case-insensitive
occurrence of the term exists. -/
theorem claim_C7_highlight :
    (∀ text search : String, (highlightSearch text search).isSome = true) ∧
    (∀ search : String, literalOfPattern (regexEscape search.data) = some search.data) ∧
    (∀ text search : String, search ≠ "" →
      highlightSearch text search = some (String.mk (markAll search.data text.data)) ∧
      MarksOf search.data text.data (markAll search.data text.data) ∧
      (markAll search.data text.data = text.data ↔
        ciOccurs search.data text.data = false)) := by
  refine ⟨?_, ?_, ?_⟩
  · intro text search
    unfold highlightSearch
    by_cases hs : search = ""
    · rw [if_pos hs]
      rfl
    · rw [if_neg hs, literalOfPattern_regexEscape]
      rfl
  · intro search
    exact literalOfPattern_regexEscape search.data
  · intro text search hs
    have hne : search.data ≠ [] := string_data_ne_nil hs
    refine ⟨?_, marksOf_markAll _ _ hne, markAll_eq_iff _ _ hne⟩
    unfold highlightSearch
    rw [if_neg hs, literalOfPattern_regexEscape]

/-- C7, witness: the term b+ (a regex metacharacter inside) compiles to the
literal pattern and highlights its occurrence in ab+c. -/
theorem claim_C7_witness :
    highlightSearch "ab+c" "b+" = some (String.mk (markAll "b+".data "ab+c".data)) :=
  (claim_C7_highlight.2.2 "ab+c" "b+" (by decide)).1

/-! ## Claim C8 -/

/-- C8, counterexample: two POSTs handled at the same millisecond (the
clock reads 1714564800000 both times) create two distinct records that
share the same id, because the file-backed variant assigns
id := Date.now(). -/
theorem claim_C8_counterexample :
    postActivity cfgSecret reqFirst [] 1714564800000 tSample
      = (PostResult.created recSameMsA, [recSameMsA]) ∧
    postActivity cfgSecret reqSecond [recSameMsA] 1714564800000 tSample
      = (PostResult.created recSameMsB, [recSameMsB, recSameMsA]) ∧
    recSameMsA.id = recSameMsB.id ∧ recSameMsA ≠ recSameMsB := by decide

/-- C8, amended: in the file-backed variant the id of a created record is
the creation-time millisecond, so records created at distinct milliseconds
have distinct ids (while same-millisecond creations collide, see the
counterexample); the Postgres variant draws ids from a BIGSERIAL sequence,
whose successive values are pairwise distinct and never reused. -/
theorem claim_C8_ids :
    (∀ (cfg : AppConfig) (r1 r2 : Req) (st1 st2 : List FileActivity) (ms1 ms2 : Nat)
       (t1 t2 : UtcTime) (a1 a2 : FileActivity) (o1 o2 : List FileActivity),
       postActivity cfg r1 st1 ms1 t1 = (PostResult.created a1, o1) →
       postActivity cfg r2 st2 ms2 t2 = (PostResult.created a2, o2) →
       ms1 ≠ ms2 → a1.id ≠ a2.id) ∧
    (∀ c i j : Nat, i ≠ j → serialIdAfter c i ≠ serialIdAfter c j) := by
  constructor
  · intro cfg r1 r2 st1 st2 ms1 ms2 t1 t2 a1 a2 o1 o2 h1 h2 hne
    rw [(postActivity_created h1).1, (postActivity_created h2).1]
    exact hne
  · intro c i j h
    unfold serialIdAfter
    omega

/-- C8, witness: records created at milliseconds 1000 and 2000 have
distinct ids. -/
theorem claim_C8_witness : recW1.id ≠ recW2.id :=
  claim_C8_ids.1 cfgSecret reqFirst reqSecond [] [] 1000 2000 tSample tSample
    recW1 recW2 [recW1] [recW2] (by decide) (by decide) (by decide)

/-! ## Claim C9 -/

/-- C9, counterexample: an unauthenticated POST with absent content is
answered 401 (Unauthorized), not 400 as the claim states for every
empty-content request; no record is created either way. -/
theorem claim_C9_counterexample :
    postActivity cfgSecret reqNoAuth [] 5 tSample = (PostResult.unauthorized, []) ∧
    statusOf (postActivity cfgSecret reqNoAuth [] 5 tSample).1 = 401 ∧
    statusOf (postActivity cfgSecret reqNoAuth [] 5 tSample).1 ≠ 400 := by decide

/-- C9, amended: every POST whose body has an empty or absent content field
leaves the stored record set unchanged, and when such a request passes the
auth check it is answered with status 400 and the structured reason
(Content required); an unauthenticated one gets 401 instead. -/
theorem claim_C9_validation : ∀ (cfg : AppConfig) (req : Req) (st : List FileActivity)
    (ms : Nat) (t : UtcTime),
    req.body.content = none ∨ req.body.content = some "" →
    (postActivity cfg req st ms t).2 = st ∧
    (postAuthOk req cfg = true →
      (postActivity cfg req st ms t).1 = PostResult.badRequest ∧
      statusOf (postActivity cfg req st ms t).1 = 400) := by
  intro cfg req st ms t hc
  have he := postActivity_empty_cases cfg req st ms t hc
  constructor
  · rw [he]
  · intro ha
    rw [he, if_neg (by simp [ha])]
    exact ⟨rfl, rfl⟩

/-- C9, witness: an authorized POST with absent content is answered 400 and
creates nothing. -/
theorem claim_C9_witness :
    (postActivity cfgSecret reqEmptyAuth [] 5 tSample).1 = PostResult.badRequest ∧
    (postActivity cfgSecret reqEmptyAuth [] 5 tSample).2 = [] := by
  have h := claim_C9_validation cfgSecret reqEmptyAuth [] 5 tSample (Or.inl rfl)
  exact ⟨(h.2 (by decide)).1, h.1⟩

/-! ## Claim C10 -/

/-- C10: an authorized POST with non-empty content whose category field is
present but the empty string (a falsy value) creates a record whose
category is the default general, exactly as when the field is omitted. -/
theorem claim_C10_categoryDefault : ∀ (cfg : AppConfig) (req : Req)
    (st : List FileActivity) (ms : Nat) (t : UtcTime) (c : String),
    postAuthOk req cfg = true → req.body.content = some c → c ≠ "" →
    (req.body.category = some "" ∨ req.body.category = none) →
    ∃ a : FileActivity,
      postActivity cfg req st ms t = (PostResult.created a, a :: st) ∧
      a.category = "general" ∧ a.content = c ∧ a.id = ms := by
  intro cfg req st ms t c ha hc hcne hcat
  refine ⟨⟨ms, c, catOrDefault req.body.category, t⟩, ?_, ?_, rfl, rfl⟩
  · unfold postActivity
    rw [if_neg (by simp [ha]), hc]
    dsimp only
    rw [if_neg hcne]
  · rcases hcat with h | h <;> simp [catOrDefault, h]

/-- C10, witness: a POST with content run and category present but empty
creates a record in category general. -/
theorem claim_C10_witness :
    ∃ a : FileActivity, postActivity cfgSecret reqCatEmpty [] 7 tSample
      = (PostResult.created a, [a]) ∧ a.category = "general" := by
  obtain ⟨a, h1, h2, -, -⟩ := claim_C10_categoryDefault cfgSecret reqCatEmpty [] 7 tSample
    "run" (by decide) rfl (by decide) (Or.inl rfl)
  exact ⟨a, h1, h2⟩
